import Mathlib

/-!
Verification of the PicoCore V2 mesh protocol engine.

Shallow embedding of the Python sources:
* `src/v2/core/comms/crc8.py` — CRC-8 checksum codec
* `src/v2/core/comms/mesh/packets.py` — packet build/parse/chunk
* `src/v2/core/comms/constants.py` — wire constants
* `src/v2/core/queue.py` — bounded ring buffer
* `src/v2/core/comms/mesh/main.py` — mesh session logic

Bytes are modelled as `Nat` values below 256, byte strings as `List Nat`.
Python functions that can raise are modelled in `Except PyErr`; a Python
`raise` is `Except.error`, statements executed before the raise have their
effects reflected in separately-stated lemmas where relevant.
-/

namespace PicoCore

/-- Python exception classes that the embedded code can raise. -/
inductive PyErr where
  | assertionError
  | typeError (msg : String)
  | valueError (msg : String)
  | indexError (msg : String)
  | attributeError (msg : String)
  | runtimeError (msg : String)
  | keyError
deriving DecidableEq, Repr

/-! ## Checksum codec (`src/v2/core/comms/crc8.py`) -/

/-- `_DEFAULT_POLY = 0x07`. -/
def _DEFAULT_POLY : Nat := 0x07

/-- `_DEFAULT_INIT = 0x00`. -/
def _DEFAULT_INIT : Nat := 0x00

/-- One step of the inner loop shared by `_make_table` and `crc8_nontable`:
`crc = ((crc << 1) ^ poly) & 0xFF` when bit 7 is set, else `crc = (crc << 1) & 0xFF`. -/
def crcStep (poly : Nat) (crc : Nat) : Nat :=
  if crc &&& 0x80 ≠ 0 then ((crc <<< 1) ^^^ poly) &&& 0xFF else (crc <<< 1) &&& 0xFF

/-- The 8-fold repetition `for _ in range(8)` of `crcStep`. -/
def crcStep8 (poly : Nat) (i : Nat) : Nat := (crcStep poly)^[8] i

/-- `_make_table(poly)`: the 256-entry table, entry `i` holding `crcStep8 poly i`. -/
def _make_table (poly : Nat) : List Nat := (List.range 256).map (crcStep8 poly)

/-- `_TABLE = _make_table(_DEFAULT_POLY)`. -/
def _TABLE : List Nat := _make_table _DEFAULT_POLY

/-- `crc8(data, init, table)`: `crc = init & 0xFF`, then `crc = tbl[crc ^ b]` per byte.
The table index `crc ^ b` is below 256 for byte data (proved in `crc8_lt`), so the
total `getD` accessor coincides with Python list indexing in every reachable use. -/
def crc8 (data : List Nat) (c0 : Nat) (table : List Nat) : Nat :=
  data.foldl (fun crc b => table.getD (crc ^^^ b) 0) (c0 &&& 0xFF)

/-- `crc8_nontable(data, poly, init)`: `crc ^= b` then eight bitwise steps, per byte. -/
def crc8_nontable (data : List Nat) (poly : Nat) (c0 : Nat) : Nat :=
  data.foldl (fun crc b => crcStep8 poly (crc ^^^ b)) (c0 &&& 0xFF)

/-- `append_crc8_to_bytes(buf)`: returns `buf + bytes([crc8(buf)])`. -/
def append_crc8_to_bytes (buf : List Nat) : List Nat :=
  buf ++ [crc8 buf _DEFAULT_INIT _TABLE]

/-- `verify_crc8(data_with_crc)`: `False` for empty input, else compares the last
byte with the CRC-8 of the preceding bytes. -/
def verify_crc8 (d : List Nat) : Bool :=
  if d.length < 1 then false
  else crc8 d.dropLast _DEFAULT_INIT _TABLE == d.getLastD 0

/-! ## Wire constants (`src/v2/core/comms/constants.py`) -/

/-- `struct.calcsize("<BBHHHBBB")`: 5 one-byte fields and 3 two-byte fields. -/
def BASE_HEADER_SIZE_NO_CRC : Nat := 11

def CRC8_SIZE : Nat := 2
def MESH_VERSION : Nat := 1
def MAX_NEIGHBORS : Nat := 32
def ESPNOW_MAX_PAYLOAD_SIZE : Nat := 250

def MESH_TYPE_HELLO : Nat := 1
def MESH_TYPE_HELLO_ACK : Nat := 2
def MESH_TYPE_DATA : Nat := 3
def MESH_TYPE_ACK : Nat := 4
def MESH_TYPE_CTRL : Nat := 5

def MESH_FLAG_NONE : Nat := 0
def MESH_FLAG_ACK : Nat := 1
def MESH_FLAG_BCAST : Nat := 2
def MESH_FLAG_UNICAST : Nat := 4
def MESH_FLAG_MULTICAST : Nat := 8
def MESH_FLAG_RELIABLE : Nat := 16
def MESH_FLAG_UNRELIABLE : Nat := 32
def MESH_FLAG_SECURE : Nat := 64
def MESH_FLAG_UNSECURE : Nat := 128

def DEFAULT_TTL : Nat := 10

/-- `MAX_PAYLOAD_SIZE = ESPNOW_MAX_PAYLOAD_SIZE - (BASE_HEADER_SIZE_NO_CRC + CRC8_SIZE)`,
that is `250 - 13 = 237`. -/
def MAX_PAYLOAD_SIZE : Nat := ESPNOW_MAX_PAYLOAD_SIZE - (BASE_HEADER_SIZE_NO_CRC + CRC8_SIZE)

def BROADCAST_ADDR : Nat := 0xFFFF
def UNDEFINED_NODE_ID : Nat := 0x0000
def BROADCAST_ADDR_MAC : List Nat := [0xFF, 0xFF, 0xFF, 0xFF, 0xFF, 0xFF]

/-- Modelled from the spec: the start-of-chunk-series marker imported by
`packets.py` as `MESH_FLAG_PARTIAL_START` but defined nowhere under `src/`
(§6: chunk markers occupy reserved bits alongside the base flag set). -/
def MESH_FLAG_PARTIAL_START : Nat := 256

/-- Modelled from the spec: the end-of-chunk-series marker imported by
`packets.py` as `MESH_FLAG_PARTIAL_END` but defined nowhere under `src/`. -/
def MESH_FLAG_PARTIAL_END : Nat := 512

/-- Modelled from the spec: the continuation marker imported by `packets.py`
as `MESH_FLAG_PARTIAL` but defined nowhere under `src/`. -/
def MESH_FLAG_PARTIAL_CONT : Nat := 1024

/-- Modelled from the spec: the gateway flag imported by `mesh/main.py` as
`MESH_FLAG_GATEWAY` but defined nowhere under `src/`. -/
def MESH_FLAG_GATEWAY : Nat := 2048

/-! ## Packet codec (`src/v2/core/comms/mesh/packets.py`) -/

/-- Little-endian `"<H"` packing of a 16-bit field.  `build_packet` asserts the
value into range before packing, so the truncating `%` is the identity there. -/
def packU16 (v : Nat) : List Nat := [v % 256, v / 256 % 256]

/-- `struct.pack("<BBHHHBBB", version, ptype, src, dst, seq, ttl, flags, plen)`:
the 11 header bytes in field order. -/
def packHeaderNoCrc (version ptype src dst seq ttl flags plen : Nat) : List Nat :=
  [version % 256, ptype % 256] ++ packU16 src ++ packU16 dst ++ packU16 seq ++
    [ttl % 256, flags % 256, plen % 256]

/-- The 9 fields returned by `parse_packet`:
`(version, ptype, src, dst, seq, ttl, flags, plen, payload)`. -/
abbrev ParsedPacket := Nat × Nat × Nat × Nat × Nat × Nat × Nat × Nat × List Nat

/-- `struct.unpack("<BBHHHBBB", header)`: requires exactly 11 bytes, otherwise
MicroPython ustruct raises ValueError for a buffer smaller than the format. -/
def unpackHeaderNoCrc (h : List Nat) :
    Except PyErr (Nat × Nat × Nat × Nat × Nat × Nat × Nat × Nat) :=
  match h with
  | [v, t, s0, s1, d0, d1, q0, q1, l, f, p] =>
      .ok (v, t, s0 + 256 * s1, d0 + 256 * d1, q0 + 256 * q1, l, f, p)
  | _ => .error (.valueError "buffer too small")

/-- `build_packet(ptype, src, dst, seq, ttl, flags, payload)`: the safety
asserts, then the packed header, its CRC-8, and the payload. -/
def build_packet (ptype src dst seq ttl flags : Nat) (payload : List Nat) :
    Except PyErr (List Nat) :=
  let version := MESH_VERSION
  let plen := payload.length
  if version ≤ 255 ∧ ptype ≤ 255 ∧ src ≤ 0xFFFF ∧ dst ≤ 0xFFFF ∧ seq ≤ 0xFFFF ∧
      ttl ≤ 255 ∧ flags ≤ 255 ∧ plen ≤ 255 then
    let header := packHeaderNoCrc version ptype src dst seq ttl flags plen
    .ok (append_crc8_to_bytes header ++ payload)
  else .error .assertionError

/-- `_checks(version, plen, plen_check)`. -/
def _checks (version plen plen_check : Nat) : Bool :=
  version == MESH_VERSION && plen == plen_check

/-- `parse_packet(packet)`: slices the header-plus-CRC span, verifies the CRC
(returning `none` on failure), unpacks the header (ustruct may raise on a
truncated buffer), then applies `_checks`. -/
def parse_packet (packet : List Nat) : Except PyErr (Option ParsedPacket) :=
  let headerCrc := packet.take (BASE_HEADER_SIZE_NO_CRC + 1)
  if verify_crc8 headerCrc then
    let header := headerCrc.dropLast
    let payload := packet.drop (BASE_HEADER_SIZE_NO_CRC + 1)
    (unpackHeaderNoCrc header).bind fun fields =>
      match fields with
      | (v, t, s, d, q, l, f, p) =>
          if _checks v p payload.length then .ok (some (v, t, s, d, q, l, f, p, payload))
          else .ok none
  else .ok none

/-- The slices `_p[i:i+MAX_PAYLOAD_SIZE]` yielded by
`for i in range(0, len(_p), MAX_PAYLOAD_SIZE)`. -/
def pySlices (l : List Nat) (sz : Nat) : List (List Nat) :=
  (List.range ((l.length + sz - 1) / sz)).map (fun i => (l.drop (i * sz)).take sz)

/-- `payload_conv(payload, _iter)` observed through iteration: the function body
contains `yield`, so calling it always returns a generator.  Driving that
generator raises ValueError for an oversized payload when `_iter` is false,
yields the `MAX_PAYLOAD_SIZE` slices when `_iter` is true, and yields nothing
when `_iter` is false (the final `return _p` only stops the generator). -/
def payload_conv (payload : List Nat) (it : Bool) : Except PyErr (List (List Nat)) :=
  if payload.length > MAX_PAYLOAD_SIZE ∧ it = false then
    .error (.valueError "Payload too large")
  else if it then .ok (pySlices payload MAX_PAYLOAD_SIZE)
  else .ok []

/-- Line 126 of `packets.py`, `_payload < MAX_PAYLOAD_SIZE`: Python does not
order bytes (or str) against int, so the comparison raises TypeError for every
payload the function documents itself to accept. -/
def pyLtBytesInt (_b : List Nat) (_n : Nat) : Except PyErr Bool :=
  .error (.typeError "unsupported comparison between bytes and int")

/-- Line 127 of `packets.py`, `build_packet(..., payload_conv(_payload))`: the
argument is a generator object (see `payload_conv`), and `len()` of a generator
inside `build_packet` raises TypeError. -/
def build_packet_of_generator : Except PyErr (List Nat) :=
  .error (.typeError "object of type generator has no len")

/-- The body of `chunk_packet` after its first comparison (unreachable in the
source, see `pyLtBytesInt`): the single-frame yield, then the enumeration of
the slices with start/end/continuation flags, where `_chunk_count` is the float
`len(_payload) / MAX_PAYLOAD_SIZE` and `i == _chunk_count` compares the int
index against that float. -/
def chunkBody (ptype src dst seq ttl flags : Nat) (payload : List Nat) (lt : Bool) :
    Except PyErr (List (List Nat)) := do
  let pre ← if lt then do
      let p ← build_packet_of_generator
      pure [p]
    else pure ([] : List (List Nat))
  let pieces ← payload_conv payload true
  let cc : ℚ := (payload.length : ℚ) / (MAX_PAYLOAD_SIZE : ℚ)
  let frames ← (pieces.enum.flatMap (fun iv =>
      (if iv.1 = 0 then
        [build_packet ptype src dst seq ttl (flags ||| MESH_FLAG_PARTIAL_START) iv.2]
      else []) ++
      (if (iv.1 : ℚ) = cc then
        [build_packet ptype src dst seq ttl (flags ||| MESH_FLAG_PARTIAL_END) iv.2]
      else
        [build_packet ptype src dst seq ttl (flags ||| MESH_FLAG_PARTIAL_CONT) iv.2]))).mapM id
  pure (pre ++ frames)

/-- `chunk_packet(ptype, src, dst, seq, ttl, flags, _payload)` observed through
iteration of the returned generator. -/
def chunk_packet (ptype src dst seq ttl flags : Nat) (payload : List Nat) :
    Except PyErr (List (List Nat)) :=
  (pyLtBytesInt payload MAX_PAYLOAD_SIZE).bind (chunkBody ptype src dst seq ttl flags payload)

/-! ## Bounded ring buffer (`src/v2/core/queue.py`, class `RingBuffer`) -/

/-- The fields of a `RingBuffer` instance.  `buf` starts as `[None] * capacity`,
so slots hold `Option α`. -/
structure RingBuffer (α : Type) where
  cap : Nat
  buf : List (Option α)
  head : Nat
  tail : Nat
  count : Nat
  overwrite : Bool
  mask : Option Nat
deriving Repr

namespace RingBuffer

variable {α : Type}

/-- `RingBuffer.__init__(capacity, overwrite)`: rejects a non-positive capacity,
computes the power-of-two mask optimization. -/
def new (capacity : Nat) (overwrite : Bool) : Except PyErr (RingBuffer α) :=
  if capacity ≤ 0 then .error (.valueError "capacity must be > 0")
  else .ok
    { cap := capacity
      buf := List.replicate capacity none
      head := 0
      tail := 0
      count := 0
      overwrite := overwrite
      mask := if capacity &&& (capacity - 1) = 0 then some (capacity - 1) else none }

/-- `_inc(idx, step)`: bitwise mask when capacity is a power of two, else one
conditional subtraction. -/
def inc (s : RingBuffer α) (idx stp : Nat) : Nat :=
  match s.mask with
  | some m => (idx + stp) &&& m
  | none => let n := idx + stp; if n ≥ s.cap then n - s.cap else n

/-- `put(item)`: when full, raises IndexError unless `overwrite`, in which case
the tail advances (dropping the oldest entry) before the write at `head`. -/
def put (s : RingBuffer α) (item : α) : Except PyErr (RingBuffer α) :=
  if s.count = s.cap ∧ s.overwrite = false then .error (.indexError "RingBuffer full")
  else
    let s1 := if s.count = s.cap then
        { s with tail := s.inc s.tail 1, count := s.count - 1 }
      else s
    .ok { s1 with
            buf := s1.buf.set s1.head (some item)
            head := s1.inc s1.head 1
            count := s1.count + 1 }

/-- `put_index(index, item)`: in-place write at logical `index` (0 is oldest). -/
def put_index (s : RingBuffer α) (index : Nat) (item : α) : Except PyErr (RingBuffer α) :=
  if index > s.count then .error (.indexError "Index out of range")
  else .ok { s with buf := s.buf.set ((s.tail + index) % s.cap) (some item) }

/-- `get()`: pops the oldest item, zeroing its slot. -/
def get (s : RingBuffer α) : Except PyErr (Option α × RingBuffer α) :=
  if s.count = 0 then .error (.indexError "RingBuffer empty")
  else .ok (s.buf.getD s.tail none,
    { s with buf := s.buf.set s.tail none, tail := s.inc s.tail 1, count := s.count - 1 })

/-- `peek(index)`: reads logical `index` without removing; the position
arithmetic duplicates `_inc(tail, index)`. -/
def peek (s : RingBuffer α) (index : Nat) : Except PyErr (Option α) :=
  if index ≥ s.count then .error (.indexError "peek index out of range")
  else .ok (s.buf.getD (s.inc s.tail index) none)

/-- `clear(keep_memory)`. -/
def clear (s : RingBuffer α) (keepMemory : Bool) : RingBuffer α :=
  { s with
      buf := if keepMemory then s.buf else List.replicate s.cap none
      head := 0
      tail := 0
      count := 0 }

/-- `clear_index(index)`: shifts the following entries down one slot, clears the
last occupied slot, decrements the count and steps `head` back (Python's
`(self._head - 1) % self._cap` is non-negative, hence `+ cap - 1` here). -/
def clear_index (s : RingBuffer α) (index : Nat) : Except PyErr (RingBuffer α) :=
  if index ≥ s.count then .error (.indexError "Index out of range")
  else
    let buf1 := (List.range (s.count - 1 - index)).foldl (fun b j =>
        let i := index + j
        b.set ((s.tail + i) % s.cap) (b.getD ((s.tail + i + 1) % s.cap) none)) s.buf
    let buf2 := buf1.set ((s.tail + s.count - 1) % s.cap) none
    let count1 := s.count - 1
    .ok { s with
            buf := buf2
            count := count1
            head := if count1 > 0 then (s.head + s.cap - 1) % s.cap else 0 }

/-- The slots visited by `__iter__` / `to_list`: `count` entries starting at
`tail`, stepping with `_inc`. -/
def toListAux (s : RingBuffer α) : Nat → Nat → List (Option α)
  | _, 0 => []
  | idx, n + 1 => s.buf.getD idx none :: s.toListAux (s.inc idx 1) n

/-- `to_list()`. -/
def to_list (s : RingBuffer α) : List (Option α) := s.toListAux s.tail s.count

/-- Python `item in ring_buffer`: membership falls back on `__iter__`, comparing
`item` against each stored slot value. -/
def contains [DecidableEq α] (s : RingBuffer α) (x : α) : Bool :=
  (s.to_list).contains (some x)

/-- `available()`. -/
def available (s : RingBuffer α) : Nat := s.count

end RingBuffer

/-- One mutating call on a `RingBuffer` (the operations a caller can issue). -/
inductive RBOp (α : Type) where
  | put (x : α)
  | putIndex (i : Nat) (x : α)
  | pop
  | clear (keepMemory : Bool)
  | clearIndex (i : Nat)

namespace RingBuffer

variable {α : Type}

/-- Run one operation; a raising call mutates nothing in the source (every
`raise` happens before the first field write), so an error keeps the state. -/
def step (s : RingBuffer α) : RBOp α → RingBuffer α
  | .put x => match s.put x with | .ok s' => s' | .error _ => s
  | .putIndex i x => match s.put_index i x with | .ok s' => s' | .error _ => s
  | .pop => match s.get with | .ok (_, s') => s' | .error _ => s
  | .clear km => s.clear km
  | .clearIndex i => match s.clear_index i with | .ok s' => s' | .error _ => s

/-- Run a sequence of operations. -/
def run (s : RingBuffer α) (ops : List (RBOp α)) : RingBuffer α :=
  ops.foldl step s

end RingBuffer

/-! ## Mesh session (`src/v2/core/comms/mesh/main.py`) -/

/-- A neighbour entry `(node_id, mac, version, seq, now, rssi, gateway)`. -/
abbrev Entry := Nat × List Nat × Nat × Nat × Nat × Nat × Bool

/-- The `node_id` component of an entry. -/
def Entry.nodeId (e : Entry) : Nat := e.1

/-- The duck-typed `peer` argument: an int node id or a bytes MAC address. -/
inductive PeerRef where
  | byId (n : Nat)
  | byMac (m : List Nat)

/-- The `Mesh` session state owned by one started session, together with the
`peers_table` of the external ESPNow transport (rssi, timestamp per MAC). -/
structure MeshState where
  sequence : Nat
  ttl : Nat
  nodeId : Nat
  neighbors : RingBuffer Entry
  peers : RingBuffer (List Nat)
  neighborIndex : Nat → Option Nat
  started : Bool
  peersTable : List Nat → Nat × Nat

namespace Mesh

/-- `_up_sequence()`: increment and wrap above 65535. -/
def upSequence (q : Nat) : Nat :=
  let q := q + 1
  if q > 0xFFFF then 0 else q

/-- `node_id(mac)` for an explicit MAC: `(mac[4] << 8) | mac[5]`. Callers pass
6-byte MACs, so the total `getD` coincides with Python indexing there. -/
def node_id_of (mac : List Nat) : Nat := (mac.getD 4 0 <<< 8) ||| mac.getD 5 0

/-- Python `==` between an int node id and a stored slot (a neighbour tuple, or
`None` for an empty slot) is always `False`; `_is_neighbor` compares exactly
these via `node_id in self._neighbors`. -/
def pyEqIntSlot (_n : Nat) (_slot : Option Entry) : Bool := false

/-- `_is_neighbor(node_id)`: `node_id in self._neighbors` iterates the stored
entry tuples (see `pyEqIntSlot`). -/
def is_neighbor (s : MeshState) (nodeId : Nat) : Bool :=
  (s.neighbors.to_list).any (pyEqIntSlot nodeId)

/-- `self._neighbor_index[node_id]`: dict subscript, KeyError when absent. -/
def dictGet (d : Nat → Option Nat) (k : Nat) : Except PyErr Nat :=
  match d k with
  | some v => .ok v
  | none => .error .keyError

/-- `_get_neighbour(node_id)`. -/
def get_neighbour (s : MeshState) (nodeId : Nat) : Except PyErr (Option Entry) :=
  if is_neighbor s nodeId = false then .ok none
  else do
    let i ← dictGet s.neighborIndex nodeId
    s.neighbors.peek i

/-- `_add_neighbor(entry)`: put the entry, then record
`self._neighbor_index[entry[0]] = len(self._neighbors)` — the length measured
after the put. -/
def add_neighbor (s : MeshState) (e : Entry) : Except PyErr MeshState := do
  let nb ← s.neighbors.put e
  pure { s with
          neighbors := nb
          neighborIndex := fun k => if k = e.nodeId then some nb.count else s.neighborIndex k }

/-- `_update_neighbor(node_id, entry)`. -/
def update_neighbor (s : MeshState) (nodeId : Nat) (e : Entry) : Except PyErr MeshState := do
  let i ← dictGet s.neighborIndex nodeId
  let nb ← s.neighbors.put_index i e
  pure { s with neighbors := nb }

/-- `get_rssi(mac)`: `self._esp.peers_table.get(mac, [0, 0])`, an external
transport lookup. -/
def get_rssi (s : MeshState) (mac : List Nat) : Nat × Nat := s.peersTable mac

/-- `device_registry(host, src, version, seq, gateway)`. -/
def device_registry (s : MeshState) (host : List Nat) (src version seq : Nat)
    (gateway : Bool) : Except PyErr MeshState :=
  let (rssi, ts) := get_rssi s host
  if is_neighbor s src = false then
    add_neighbor s (src, host, version, seq, ts, rssi, gateway)
  else
    update_neighbor s src (src, host, version, seq, ts, rssi, gateway)

/-- `is_mac(value)`. -/
def is_mac (m : List Nat) : Bool := m.length == 6

/-- `_is_node_id(ref)`: `True` for an in-range int, `False` for a 6-byte MAC,
`None` otherwise. -/
def is_node_id (p : PeerRef) : Option Bool :=
  match p with
  | .byMac m => if m.length = 6 then some false else none
  | .byId n => if n ≤ 0xFFFF then some true else none

/-- Line 272 of `mesh/main.py`, `node_id, mac, _, _, _, _ = entry`: the stored
entry is a 7-tuple, so unpacking it into 6 names raises ValueError. -/
def unpackEntry6 (_e : Entry) : Except PyErr (Nat × List Nat) :=
  .error (.valueError "too many values to unpack")

/-- `_peer(peer)`. -/
def peer (s : MeshState) (p : PeerRef) : Except PyErr (Nat × List Nat) :=
  if is_node_id p = some true then do
    let pid := match p with | .byId n => n | .byMac _ => 0
    let entry ← get_neighbour s pid
    match entry with
    | none => .error (.valueError "Unknown node ID")
    | some e => unpackEntry6 e
  else
    match p with
    | .byMac m =>
        if is_mac m then .ok (node_id_of m, m)
        else .error (.valueError "Invalid peer")
    | .byId _ => .error (.valueError "Invalid peer")

/-- `_add(mac)`: register the MAC with the transport once, caching it in the
peers ring. -/
def addPeerMac (s : MeshState) (mac : List Nat) : Except PyErr MeshState :=
  if s.peers.contains mac then .ok s
  else do
    let pr ← s.peers.put mac
    pure { s with peers := pr }

/-- `_send(packet, addr, ack)` / `_async_send`: the started guard, then `_add`,
then the external `esp.send` (which mutates no session state). -/
def send (s : MeshState) (_packet : List Nat) (addr : List Nat) : Except PyErr MeshState :=
  if s.started = false then
    .error (.runtimeError "Mesh needs to be started before sending packets")
  else addPeerMac s addr

/-- One iteration of the `send_data` loop: `_up_sequence()`, then
`build_packet(MESH_TYPE_DATA, ...)` with the fresh sequence value, then
`_send(packet, mac, True)`. -/
def sendStep (dst : Nat) (mac : List Nat) (acc : MeshState × List (List Nat))
    (piece : List Nat) : Except PyErr (MeshState × List (List Nat)) := do
  let st := { acc.1 with sequence := upSequence acc.1.sequence }
  let pkt ← build_packet MESH_TYPE_DATA st.nodeId dst st.sequence 1
    (MESH_FLAG_UNICAST ||| MESH_FLAG_UNSECURE) piece
  let st ← send st pkt mac
  pure (st, acc.2 ++ [pkt])

/-- `send_data(peer, payload)`: resolve the peer, then one `sendStep` per slice
of `payload_conv(payload, True)`.  Returns the final state and the transmitted
frames in order. -/
def send_data (s : MeshState) (p : PeerRef) (payload : List Nat) :
    Except PyErr (MeshState × List (List Nat)) := do
  let dm ← peer s p
  let pieces ← payload_conv payload true
  pieces.foldlM (sendStep dm.1 dm.2) (s, [])

end Mesh

/-- Little-endian 4-byte packing of one `struct` `'i'` field (values in use are
small and non-negative). -/
def packU32 (v : Nat) : List Nat :=
  [v % 256, v / 256 % 256, v / 65536 % 256, v / 16777216 % 256]

/-- `encode_neighbour_tuple(data)` (`packets.py`): `struct.pack('ii', a, b_len)`,
the MAC bytes, then `struct.pack('iiii?', c, d, e, f, g)`. -/
def encode_neighbour_tuple (e : Entry) : List Nat :=
  match e with
  | (a, mac, c, d, ts, f, g) =>
      packU32 a ++ packU32 mac.length ++ mac ++
        packU32 c ++ packU32 d ++ packU32 ts ++ packU32 f ++ [if g then 1 else 0]

namespace Mesh

/-- Line 411 of `mesh/main.py`, `self._neighbors.to_tuple()`: class `RingBuffer`
(`src/v2/core/queue.py`) defines no `to_tuple` method, so the attribute lookup
raises AttributeError. -/
def ringToTuple (_s : RingBuffer Entry) : Except PyErr Entry :=
  .error (.attributeError "RingBuffer object has no attribute to_tuple")

/-- `async_hello_ack(mac)`: encode the own neighbour table (see `ringToTuple`),
then send every frame of `chunk_packet(MESH_TYPE_HELLO_ACK, ...)` unicast. -/
def async_hello_ack (s : MeshState) (mac : List Nat) :
    Except PyErr (MeshState × List (List Nat)) := do
  let t ← ringToTuple s.neighbors
  let payload := encode_neighbour_tuple t
  let frames ← chunk_packet MESH_TYPE_HELLO_ACK s.nodeId (node_id_of mac) s.sequence 1
    (MESH_FLAG_UNICAST ||| MESH_FLAG_UNSECURE) payload
  frames.foldlM (fun acc f => do
      let st ← send acc.1 f mac
      pure (st, acc.2 ++ [f]))
    (s, [])

/-- Tuple-unpacking the result of `parse_packet` in `_irq`: unpacking `None`
raises TypeError. -/
def unpackParsed (r : Option ParsedPacket) : Except PyErr ParsedPacket :=
  match r with
  | some t => .ok t
  | none => .error (.typeError "cannot unpack non-iterable NoneType object")

/-- `_irq(host, msg)`: parse and destructure, drop own frames, register the
sender via `device_registry` (gateway flag selects the boolean), then the
packet-type dispatch.  The DATA branch wraps its decode and callback in a
`try/except` that swallows every exception, so it neither mutates session state
nor raises; the HELLO_ACK branch only logs. -/
def irq (s : MeshState) (host : List Nat) (msg : List Nat) :
    Except PyErr (MeshState × List (List Nat)) := do
  let parsed ← parse_packet msg
  let fields ← unpackParsed parsed
  match fields with
  | (version, ptype, src, _dst, seq, _ttl, flags, _plen, _payload) =>
    if src = s.nodeId then pure (s, [])
    else do
      let s ← if flags &&& MESH_FLAG_GATEWAY ≠ 0 then
          device_registry s host src version seq true
        else
          device_registry s host src version seq false
      let r ← if ptype = MESH_TYPE_HELLO ∧ flags &&& MESH_FLAG_ACK ≠ 0 then
          async_hello_ack s host
        else pure (s, ([] : List (List Nat)))
      pure r

end Mesh

/-! ## Supporting lemmas for the packet codec -/

theorem packHeaderNoCrc_length (v t s d q l f p : Nat) :
    (packHeaderNoCrc v t s d q l f p).length = 11 := rfl

/-- Reassembling a little-endian 16-bit field recovers the value. -/
theorem unpack16_pack16 (v : Nat) (h : v ≤ 0xFFFF) : v % 256 + 256 * (v / 256 % 256) = v := by
  have hd : v / 256 < 256 := by
    have := (Nat.div_lt_iff_lt_mul (k := 256) (by norm_num)).mpr
      (show v < 256 * 256 by omega)
    exact this
  rw [Nat.mod_eq_of_lt hd]
  exact Nat.mod_add_div v 256

/-- `build_packet` succeeds on in-range fields, producing the checksummed
header followed by the payload. -/
theorem build_packet_ok (ptype src dst seq ttl flags : Nat) (payload : List Nat)
    (h1 : ptype ≤ 255) (h2 : src ≤ 0xFFFF) (h3 : dst ≤ 0xFFFF) (h4 : seq ≤ 0xFFFF)
    (h5 : ttl ≤ 255) (h6 : flags ≤ 255) (h7 : payload.length ≤ 255) :
    build_packet ptype src dst seq ttl flags payload =
      .ok (append_crc8_to_bytes
        (packHeaderNoCrc MESH_VERSION ptype src dst seq ttl flags payload.length) ++ payload) := by
  simp only [build_packet]
  rw [if_pos]
  exact ⟨by norm_num [MESH_VERSION], h1, h2, h3, h4, h5, h6, h7⟩

/-- `verify_crc8` accepts any buffer produced by `append_crc8_to_bytes`. -/
theorem verify_append_crc8 (l : List Nat) :
    verify_crc8 (append_crc8_to_bytes l) = true := by
  simp [verify_crc8, append_crc8_to_bytes, List.dropLast_concat, List.getLastD_concat]

/-! ## C1 -/

/-- C1: for every field combination within the declared bit-widths (payload of
length 0–239, version being the engine's `MESH_VERSION`), `parse_packet`
succeeds on the output of `build_packet` and reconstructs every header field
and the payload exactly. -/
theorem C1_build_parse_roundtrip
    (ptype src dst seq ttl flags : Nat) (payload : List Nat)
    (h1 : ptype ≤ 255) (h2 : src ≤ 0xFFFF) (h3 : dst ≤ 0xFFFF) (h4 : seq ≤ 0xFFFF)
    (h5 : ttl ≤ 255) (h6 : flags ≤ 255) (h7 : payload.length ≤ 239) :
    ∃ pkt, build_packet ptype src dst seq ttl flags payload = .ok pkt ∧
      parse_packet pkt = .ok (some (MESH_VERSION, ptype, src, dst, seq, ttl, flags,
        payload.length, payload)) := by
  refine ⟨_, build_packet_ok ptype src dst seq ttl flags payload
    h1 h2 h3 h4 h5 h6 (by omega), ?_⟩
  set hdr := packHeaderNoCrc MESH_VERSION ptype src dst seq ttl flags payload.length with hhdr
  have hlen12 : (append_crc8_to_bytes hdr).length = 12 := by
    simp [append_crc8_to_bytes, packHeaderNoCrc_length, hhdr]
  simp only [parse_packet, BASE_HEADER_SIZE_NO_CRC]
  rw [List.take_left' hlen12, List.drop_left' hlen12, verify_append_crc8, if_pos rfl]
  simp only [append_crc8_to_bytes, List.dropLast_concat]
  have hv : MESH_VERSION % 256 = MESH_VERSION := by norm_num [MESH_VERSION]
  have ht : ptype % 256 = ptype := Nat.mod_eq_of_lt (by omega)
  have hl : ttl % 256 = ttl := Nat.mod_eq_of_lt (by omega)
  have hf : flags % 256 = flags := Nat.mod_eq_of_lt (by omega)
  have hp : payload.length % 256 = payload.length := Nat.mod_eq_of_lt (by omega)
  simp only [hhdr, packHeaderNoCrc, packU16, List.cons_append, List.nil_append,
    unpackHeaderNoCrc, unpack16_pack16 src h2, unpack16_pack16 dst h3,
    unpack16_pack16 seq h4, hv, ht, hl, hf, hp, Except.bind]
  simp [_checks]

/-- Concrete instance of C1 with every hypothesis discharged. -/
theorem C1_build_parse_roundtrip_witness :
    ∃ pkt, build_packet 3 5 7 9 1 132 [10, 20] = .ok pkt ∧
      parse_packet pkt = .ok (some (MESH_VERSION, 3, 5, 7, 9, 1, 132, 2, [10, 20])) :=
  C1_build_parse_roundtrip 3 5 7 9 1 132 [10, 20] (by decide) (by decide) (by decide)
    (by decide) (by decide) (by decide) (by decide)

/-! ## C2 -/

/-- C2 (code bug): `chunk_packet` never yields a frame — its first statement
`_payload < MAX_PAYLOAD_SIZE` compares bytes with an int and raises TypeError
for every payload, here shown for a 1-byte payload that the claim says should
yield exactly one frame. -/
theorem C2_chunk_packet_raises :
    chunk_packet MESH_TYPE_DATA 1 2 0 1 0 [0] =
      .error (.typeError "unsupported comparison between bytes and int") := rfl

/-! ## C3 -/

/-- C3 (code bug): `parse_packet` raises on the 1-byte buffer `b"\x00"` — the
empty prefix checksums to `0`, matching the lone byte, so verification passes
and `ustruct.unpack` is applied to an empty header slice. -/
theorem C3_parse_packet_raises_on_truncated :
    parse_packet [0] = .error (.valueError "buffer too small") := rfl

/-! ## Supporting lemmas for the checksum codec -/

theorem crcStep_lt (poly crc : Nat) : crcStep poly crc < 256 := by
  unfold crcStep
  split <;> exact Nat.lt_succ_of_le Nat.and_le_right

theorem crcStep8_lt (poly i : Nat) : crcStep8 poly i < 256 := by
  rw [crcStep8, Function.iterate_succ_apply']
  exact crcStep_lt poly _

theorem table_getD (poly i : Nat) (h : i < 256) :
    (_make_table poly).getD i 0 = crcStep8 poly i := by
  simp [_make_table, List.getD_eq_getElem?_getD, List.getElem?_map, List.getElem?_range, h]

theorem table_getD_lt (poly i : Nat) : (_make_table poly).getD i 0 < 256 := by
  by_cases h : i < 256
  · rw [table_getD poly i h]; exact crcStep8_lt poly i
  · rw [List.getD_eq_default]
    · norm_num
    · simpa [_make_table] using Nat.le_of_not_lt h

theorem crc8_foldl_lt (l : List Nat) : ∀ a, a < 256 →
    l.foldl (fun crc b => _TABLE.getD (crc ^^^ b) 0) a < 256 := by
  induction l with
  | nil => intro a ha; simpa using ha
  | cons b l ih =>
      intro a _
      exact ih _ (table_getD_lt _DEFAULT_POLY _)

theorem crc8_lt (data : List Nat) (c0 : Nat) : crc8 data c0 _TABLE < 256 :=
  crc8_foldl_lt data (c0 &&& 0xFF) (Nat.lt_succ_of_le Nat.and_le_right)

/-- Nat `<<< 1` distributes over XOR. -/
theorem shiftLeft_one_xor (a b : Nat) : (a ^^^ b) <<< 1 = (a <<< 1) ^^^ (b <<< 1) := by
  apply Nat.eq_of_testBit_eq
  intro i
  simp [Nat.testBit_shiftLeft, Nat.testBit_xor, Bool.and_xor_distrib_left]

/-- A byte's bit 7 mask, expressed through `testBit`. -/
theorem and_128_eq (a : Nat) : a &&& 128 = (a.testBit 7).toNat * 128 := by
  simpa using Nat.and_two_pow a 7

theorem natXorLeftComm (x y z : Nat) : x ^^^ (y ^^^ z) = y ^^^ (x ^^^ z) := by
  rw [← Nat.xor_assoc, Nat.xor_comm x y, Nat.xor_assoc]

/-- One CRC shift step is linear over XOR (for any polynomial). -/
theorem crcStep_linear (poly a b : Nat) :
    crcStep poly (a ^^^ b) = crcStep poly a ^^^ crcStep poly b := by
  unfold crcStep
  rw [Nat.and_xor_distrib_right, and_128_eq a, and_128_eq b, shiftLeft_one_xor]
  rcases ha : a.testBit 7 <;> rcases hb : b.testBit 7 <;>
    simp only [Bool.toNat_true, Bool.toNat_false, Nat.zero_mul, Nat.one_mul,
      Nat.zero_xor, Nat.xor_zero, Nat.xor_self, ne_eq] <;>
    norm_num <;>
    rw [← Nat.and_xor_distrib_right] <;>
    congr 1 <;>
    simp [Nat.xor_assoc, Nat.xor_comm, natXorLeftComm, Nat.xor_cancel_left,
      Nat.xor_self, Nat.xor_zero]

/-- Iterated CRC steps are linear over XOR. -/
theorem crcStep_iterate_linear (poly n a b : Nat) :
    (crcStep poly)^[n] (a ^^^ b) = (crcStep poly)^[n] a ^^^ (crcStep poly)^[n] b := by
  induction n generalizing a b with
  | zero => rfl
  | succ n ih =>
      rw [Function.iterate_succ_apply, Function.iterate_succ_apply,
        Function.iterate_succ_apply, crcStep_linear, ih]

theorem crcStep8_linear (poly a b : Nat) :
    crcStep8 poly (a ^^^ b) = crcStep8 poly a ^^^ crcStep8 poly b :=
  crcStep_iterate_linear poly 8 a b

set_option maxRecDepth 8192 in
/-- The default CRC table holds 256 pairwise-distinct entries. -/
theorem TABLE_nodup : _TABLE.Nodup := by decide

/-- `table_getD` and `table_getD_lt` specialized to the shared default table
(`_TABLE` is definitionally `_make_table _DEFAULT_POLY`). -/
theorem TABLE_getD (i : Nat) (h : i < 256) :
    _TABLE.getD i 0 = crcStep8 _DEFAULT_POLY i :=
  table_getD _DEFAULT_POLY i h

theorem TABLE_getD_lt (i : Nat) : _TABLE.getD i 0 < 256 :=
  table_getD_lt _DEFAULT_POLY i

/-- The 8-step CRC transformation is injective on bytes. -/
theorem crcStep8_injOn {a b : Nat} (ha : a < 256) (hb : b < 256)
    (h : crcStep8 _DEFAULT_POLY a = crcStep8 _DEFAULT_POLY b) : a = b :=
  List.inj_on_of_nodup_map TABLE_nodup (List.mem_range.mpr ha) (List.mem_range.mpr hb) h

theorem crcStep8_zero : crcStep8 _DEFAULT_POLY 0 = 0 := rfl

/-- Iterating the 8-step transformation never maps a nonzero byte to zero. -/
theorem crcStep8_iterate_ne_zero (k : Nat) :
    ∀ d, d ≠ 0 → d < 256 → (crcStep8 _DEFAULT_POLY)^[k] d ≠ 0 := by
  induction k with
  | zero => intro d h0 _; simpa using h0
  | succ k ih =>
      intro d h0 hlt
      rw [Function.iterate_succ_apply]
      refine ih _ (fun hz => h0 ?_) (crcStep8_lt _ d)
      exact crcStep8_injOn hlt (by norm_num) (hz.trans crcStep8_zero.symm)

/-- XOR-difference propagation through the table-driven fold: processing the
same byte list from two different accumulators keeps their XOR related by the
iterated 8-step transformation. -/
theorem crc8_fold_diff (l : List Nat) (hl : ∀ x ∈ l, x < 256) :
    ∀ a a', a < 256 → a' < 256 →
      (l.foldl (fun crc b => _TABLE.getD (crc ^^^ b) 0) a) ^^^
        (l.foldl (fun crc b => _TABLE.getD (crc ^^^ b) 0) a') =
      (crcStep8 _DEFAULT_POLY)^[l.length] (a ^^^ a') := by
  induction l with
  | nil => intro a a' _ _; rfl
  | cons b l ih =>
      intro a a' ha ha'
      have hb : b < 256 := hl b (List.mem_cons_self b l)
      have hl' : ∀ x ∈ l, x < 256 := fun x hx => hl x (List.mem_cons_of_mem b hx)
      have h256 : (256 : Nat) = 2 ^ 8 := by norm_num
      have hxa : a ^^^ b < 256 := by
        rw [h256] at ha hb ⊢; exact Nat.xor_lt_two_pow ha hb
      have hxa' : a' ^^^ b < 256 := by
        rw [h256] at ha' hb ⊢; exact Nat.xor_lt_two_pow ha' hb
      have hcancel : (a ^^^ b) ^^^ (a' ^^^ b) = a ^^^ a' := by
        simp [Nat.xor_assoc, Nat.xor_comm, natXorLeftComm, Nat.xor_cancel_left,
          Nat.xor_self, Nat.xor_zero]
      rw [List.foldl_cons, List.foldl_cons,
        ih hl' _ _ (TABLE_getD_lt _) (TABLE_getD_lt _),
        TABLE_getD _ hxa, TABLE_getD _ hxa', ← crcStep8_linear, hcancel,
        ← Function.iterate_succ_apply]
      rfl

/-- Changing the byte at one position of a byte buffer changes its CRC-8. -/
theorem crc8_set_ne (b : List Nat) (i v : Nat)
    (hb : ∀ x ∈ b, x < 256) (hi : i < b.length) (hv : v < 256)
    (hne : v ≠ b.getD i 0) :
    crc8 (b.set i v) _DEFAULT_INIT _TABLE ≠ crc8 b _DEFAULT_INIT _TABLE := by
  have hbi : b.getD i 0 = b[i] := List.getD_eq_getElem b 0 hi
  have hdecomp : b = b.take i ++ b[i] :: b.drop (i + 1) := by
    conv_lhs => rw [← List.take_append_drop i b]
    rw [← List.getElem_cons_drop b i hi]
  have hset : b.set i v = b.take i ++ v :: b.drop (i + 1) :=
    List.set_eq_take_append_cons_drop.trans (by rw [if_pos hi])
  unfold crc8
  rw [hset]
  conv_rhs => rw [hdecomp]
  rw [List.foldl_append, List.foldl_append, List.foldl_cons, List.foldl_cons]
  set c := (b.take i).foldl (fun crc x => _TABLE.getD (crc ^^^ x) 0) (_DEFAULT_INIT &&& 0xFF)
    with hc
  have hclt : c < 256 := crc8_foldl_lt _ _ (by norm_num [_DEFAULT_INIT])
  have hbilt : b[i] < 256 := hb _ (List.getElem_mem hi)
  have h256 : (256 : Nat) = 2 ^ 8 := by norm_num
  have hxv : c ^^^ v < 256 := by
    rw [h256] at hclt hv ⊢; exact Nat.xor_lt_two_pow hclt hv
  have hxbi : c ^^^ b[i] < 256 := by
    rw [h256] at hclt hbilt ⊢; exact Nat.xor_lt_two_pow hclt hbilt
  have hdrop : ∀ x ∈ b.drop (i + 1), x < 256 := fun x hx => hb x (List.mem_of_mem_drop hx)
  intro heq
  have hdiff := crc8_fold_diff (b.drop (i + 1)) hdrop
    (_TABLE.getD (c ^^^ v) 0) (_TABLE.getD (c ^^^ b[i]) 0)
    (table_getD_lt _ _) (table_getD_lt _ _)
  rw [heq, Nat.xor_self] at hdiff
  have hlin : _TABLE.getD (c ^^^ v) 0 ^^^ _TABLE.getD (c ^^^ b[i]) 0 =
      crcStep8 _DEFAULT_POLY (v ^^^ b[i]) := by
    rw [TABLE_getD _ hxv, TABLE_getD _ hxbi, ← crcStep8_linear]
    congr 1
    simp [Nat.xor_assoc, Nat.xor_comm, natXorLeftComm, Nat.xor_cancel_left,
      Nat.xor_self, Nat.xor_zero]
  rw [hlin, ← Function.iterate_succ_apply] at hdiff
  have hvne : v ^^^ b[i] ≠ 0 := Nat.xor_ne_zero.mpr (hbi ▸ hne)
  have hvlt : v ^^^ b[i] < 256 := by
    rw [h256] at hv hbilt ⊢; exact Nat.xor_lt_two_pow hv hbilt
  exact crcStep8_iterate_ne_zero _ _ hvne hvlt hdiff.symm

/-- `verify_crc8` on a buffer with one trailing byte compares that byte against
the CRC-8 of the rest. -/
theorem verify_crc8_concat (l : List Nat) (c : Nat) :
    verify_crc8 (l ++ [c]) = (crc8 l _DEFAULT_INIT _TABLE == c) := by
  simp [verify_crc8, List.dropLast_concat, List.getLastD_concat]

/-! ## C7 -/

/-- C7: appending the CRC-8 to a byte buffer and then altering any single data
byte (or the checksum byte itself) makes `verify_crc8` fail. -/
theorem C7_crc8_detects_single_byte_change (b : List Nat) (i v w : Nat)
    (hb : ∀ x ∈ b, x < 256) (hi : i < b.length) (hv : v < 256)
    (hne : v ≠ b.getD i 0) (hw : w ≠ crc8 b _DEFAULT_INIT _TABLE) :
    verify_crc8 (b.set i v ++ [crc8 b _DEFAULT_INIT _TABLE]) = false ∧
      verify_crc8 (b ++ [w]) = false := by
  constructor
  · rw [verify_crc8_concat]
    exact beq_eq_false_iff_ne.mpr (crc8_set_ne b i v hb hi hv hne)
  · rw [verify_crc8_concat]
    exact beq_eq_false_iff_ne.mpr (Ne.symm hw)

/-- Concrete instance of C7 with every hypothesis discharged: corrupting byte 1
of `[1, 2, 3]`, or the appended checksum, is detected. -/
theorem C7_crc8_detects_single_byte_change_witness :
    verify_crc8 (([1, 2, 3] : List Nat).set 1 9 ++ [crc8 [1, 2, 3] _DEFAULT_INIT _TABLE])
        = false ∧
      verify_crc8 ([1, 2, 3] ++ [0]) = false :=
  C7_crc8_detects_single_byte_change [1, 2, 3] 1 9 0 (by decide) (by decide) (by decide)
    (by decide) (by decide)

/-! ## C9 -/

theorem crc8_fold_eq_nontable (l : List Nat) (hl : ∀ x ∈ l, x < 256) :
    ∀ a, a < 256 →
      l.foldl (fun crc b => _TABLE.getD (crc ^^^ b) 0) a =
        l.foldl (fun crc b => crcStep8 _DEFAULT_POLY (crc ^^^ b)) a := by
  induction l with
  | nil => intro a _; rfl
  | cons b l ih =>
      intro a ha
      have hb : b < 256 := hl b (List.mem_cons_self b l)
      have h256 : (256 : Nat) = 2 ^ 8 := by norm_num
      have hx : a ^^^ b < 256 := by
        rw [h256] at ha hb ⊢; exact Nat.xor_lt_two_pow ha hb
      have hl' : ∀ x ∈ l, x < 256 := fun x hx => hl x (List.mem_cons_of_mem b hx)
      rw [List.foldl_cons, List.foldl_cons, TABLE_getD _ hx]
      exact ih hl' _ (crcStep8_lt _ _)

/-- C9: for every byte sequence and every initial value, the table-based
`crc8` and the table-less `crc8_nontable` (default polynomial `0x07`) agree. -/
theorem C9_crc8_table_eq_nontable (data : List Nat) (c0 : Nat)
    (h : ∀ x ∈ data, x < 256) :
    crc8 data c0 _TABLE = crc8_nontable data _DEFAULT_POLY c0 :=
  crc8_fold_eq_nontable data h (c0 &&& 0xFF) (Nat.lt_succ_of_le Nat.and_le_right)

/-- Concrete instance of C9 with the hypothesis discharged. -/
theorem C9_crc8_table_eq_nontable_witness :
    crc8 [1, 128, 255, 0, 7] 42 _TABLE = crc8_nontable [1, 128, 255, 0, 7] _DEFAULT_POLY 42 :=
  C9_crc8_table_eq_nontable [1, 128, 255, 0, 7] 42 (by decide)

/-! ## Session fixtures and helpers for the mesh-level claims -/

/-- The state produced by `RingBuffer.__init__` for a positive capacity. -/
def mkRing (α : Type) (cap : Nat) (ow : Bool) : RingBuffer α :=
  { cap := cap
    buf := List.replicate cap none
    head := 0
    tail := 0
    count := 0
    overwrite := ow
    mask := if cap &&& (cap - 1) = 0 then some (cap - 1) else none }

theorem RingBuffer.new_ok (α : Type) (cap : Nat) (ow : Bool) (hc : 0 < cap) :
    RingBuffer.new cap ow = .ok (mkRing α cap ow) := by
  unfold RingBuffer.new mkRing
  rw [if_neg (by omega)]

/-- A started session: node id 1, the two fresh 32-slot overwriting rings of
`Mesh.__init__`, an empty neighbour index, a transport peers table reporting
`(0, 0)` for every MAC. -/
def testMesh : MeshState :=
  { sequence := 0
    ttl := DEFAULT_TTL
    nodeId := 1
    neighbors := mkRing Entry 32 true
    peers := mkRing (List Nat) 32 true
    neighborIndex := fun _ => none
    started := true
    peersTable := fun _ => (0, 0) }

/-- The little-endian `seq` field of a built frame (header bytes 6 and 7). -/
def seqOfPacket (p : List Nat) : Nat := p.getD 6 0 + 256 * p.getD 7 0

/-- A valid broadcast HELLO frame from node 5 (MAC suffix `[0, 5]`), flags
`MESH_FLAG_BCAST ||| MESH_FLAG_ACK ||| MESH_FLAG_UNSECURE = 131`, as built by
`Mesh._hello`. -/
def helloMsg : List Nat :=
  (build_packet MESH_TYPE_HELLO 5 BROADCAST_ADDR 1 1 131 []).toOption.getD []

/-! ## C4 -/

/-- C4 (code bug): on a valid ACK-requested HELLO from foreign node 5, the
receive handler does register the sender, but the HELLO_ACK reply is never
sent: `async_hello_ack` calls the nonexistent `RingBuffer.to_tuple` and raises
AttributeError, so `_irq` propagates the exception instead of replying.
Moreover a second frame from the already-known sender is appended as a
duplicate entry rather than refreshing the existing one, because
`_is_neighbor` compares the int node id against stored tuples. -/
theorem C4_hello_ack_never_sent :
    ∃ s1, Mesh.device_registry testMesh [1, 2, 3, 4, 0, 5] 5 1 1 false = .ok s1 ∧
      s1.neighbors.count = 1 ∧
      Mesh.async_hello_ack s1 [1, 2, 3, 4, 0, 5] =
        .error (.attributeError "RingBuffer object has no attribute to_tuple") ∧
      Mesh.irq testMesh [1, 2, 3, 4, 0, 5] helloMsg =
        .error (.attributeError "RingBuffer object has no attribute to_tuple") ∧
      (Mesh.device_registry s1 [1, 2, 3, 4, 0, 5] 5 1 2 false).map
          (fun s => s.neighbors.count) = .ok 2 :=
  ⟨_, rfl, rfl, rfl, rfl, rfl⟩

/-! ## C8 -/

/-- C8 (code bug): after node 5 is registered through `device_registry`, its
entry is stored in the neighbour ring, yet `_peer(5)` still raises the
unknown-node error — `_is_neighbor` compares the int against stored tuples and
never finds it — so `send` raises for known and unknown node ids alike (the
"absent implies error" direction does hold, shown for unregistered id 9). -/
theorem C8_known_node_id_still_unknown :
    ∃ s1, Mesh.device_registry testMesh [1, 2, 3, 4, 0, 5] 5 1 1 false = .ok s1 ∧
      s1.neighbors.to_list.contains (some (5, [1, 2, 3, 4, 0, 5], 1, 1, 0, 0, false))
        = true ∧
      Mesh.peer s1 (.byId 5) = .error (.valueError "Unknown node ID") ∧
      Mesh.peer testMesh (.byId 9) = .error (.valueError "Unknown node ID") :=
  ⟨_, rfl, rfl, rfl, rfl⟩

/-! ## C10 -/

/-- C10 (code bug): adding a first neighbour stores index 1 in the index map
(`len` measured after the `put`), but the entry sits at position 0 of a
1-element ring: the stored index is not a valid position (`peek(1)` raises
IndexError, the entry lives at `peek(0)`), and looking the sender up by node id
right after the add returns `None` instead of the stored entry. -/
theorem C10_neighbor_index_inconsistent :
    ∃ s1, Mesh.add_neighbor testMesh (5, [1, 2, 3, 4, 0, 5], 1, 1, 0, 0, false) = .ok s1 ∧
      s1.neighborIndex 5 = some 1 ∧
      s1.neighbors.count = 1 ∧
      s1.neighbors.peek 1 = .error (.indexError "peek index out of range") ∧
      s1.neighbors.peek 0 = .ok (some (5, [1, 2, 3, 4, 0, 5], 1, 1, 0, 0, false)) ∧
      Mesh.get_neighbour s1 5 = .ok none :=
  ⟨_, rfl, rfl, rfl, rfl, rfl, rfl⟩

/-! ## C5 counterexample -/

set_option maxRecDepth 100000 in
/-- C5 (counterexample): sending a 238-byte payload to a MAC peer from a fresh
started session transmits two chunks and leaves the sequence counter at 2, not
at 1 — `_up_sequence` runs inside the per-chunk loop — and the two frames carry
the distinct seq values 1 and 2 rather than one shared value. -/
theorem C5_sequence_counterexample :
    (Mesh.send_data testMesh (.byMac [1, 2, 3, 4, 0, 9]) (List.replicate 238 65)).map
        (fun r => (r.1.sequence, r.2.map seqOfPacket)) = .ok (2, [1, 2]) ∧
      ¬ ((Mesh.send_data testMesh (.byMac [1, 2, 3, 4, 0, 9])
            (List.replicate 238 65)).map (fun r => r.1.sequence)
          = .ok (testMesh.sequence + 1)) := by
  constructor
  · rfl
  · intro h
    have h2 : (Mesh.send_data testMesh (.byMac [1, 2, 3, 4, 0, 9])
        (List.replicate 238 65)).map (fun r => r.1.sequence) = .ok 2 := rfl
    rw [h2] at h
    exact absurd (Except.ok.inj h) (by decide)

/-! ## C5 amended: one sequence increment per chunk -/

theorem upSequence_le (q : Nat) : Mesh.upSequence q ≤ 0xFFFF := by
  show (if q + 1 > 0xFFFF then 0 else q + 1) ≤ 0xFFFF
  split <;> omega

theorem upSequence_iterate_le (k q : Nat) : Mesh.upSequence^[k + 1] q ≤ 0xFFFF := by
  rw [Function.iterate_succ_apply']
  exact upSequence_le _

/-- The frame `send_data` builds for one chunk. -/
def dataFrame (srcId dst q : Nat) (piece : List Nat) : List Nat :=
  append_crc8_to_bytes (packHeaderNoCrc MESH_VERSION MESH_TYPE_DATA srcId dst q 1
    (MESH_FLAG_UNICAST ||| MESH_FLAG_UNSECURE) piece.length) ++ piece

theorem seqOfPacket_dataFrame (srcId dst q : Nat) (piece : List Nat) (hq : q ≤ 0xFFFF) :
    seqOfPacket (dataFrame srcId dst q piece) = q := by
  have : seqOfPacket (dataFrame srcId dst q piece) = q % 256 + 256 * (q / 256 % 256) := by
    simp [dataFrame, append_crc8_to_bytes, packHeaderNoCrc, packU16, seqOfPacket]
  rw [this]
  exact unpack16_pack16 q hq

theorem peer_byMac (s : MeshState) (m : List Nat) (hm : m.length = 6) :
    Mesh.peer s (.byMac m) = .ok (Mesh.node_id_of m, m) := by
  simp [Mesh.peer, Mesh.is_node_id, Mesh.is_mac, hm]

theorem node_id_of_le (m : List Nat) (hmb : ∀ x ∈ m, x < 256) (hm : m.length = 6) :
    Mesh.node_id_of m ≤ 0xFFFF := by
  have h4 : m.getD 4 0 < 256 := by
    rw [List.getD_eq_getElem m 0 (by omega)]
    exact hmb _ (List.getElem_mem _)
  have h5 : m.getD 5 0 < 256 := by
    rw [List.getD_eq_getElem m 0 (by omega)]
    exact hmb _ (List.getElem_mem _)
  have hl : m.getD 4 0 <<< 8 < 2 ^ 16 := by
    rw [Nat.shiftLeft_eq, show (2 : Nat) ^ 8 = 256 from by norm_num,
      show (2 : Nat) ^ 16 = 65536 from by norm_num]
    omega
  have hr : m.getD 5 0 < 2 ^ 16 := lt_trans h5 (by norm_num)
  have h := Nat.or_lt_two_pow hl hr
  rw [show (2 : Nat) ^ 16 = 65536 from by norm_num] at h
  unfold Mesh.node_id_of
  omega

theorem put_overwrite_ok {α : Type} (s : RingBuffer α) (x : α) (hov : s.overwrite = true) :
    ∃ s', s.put x = .ok s' ∧ s'.overwrite = true := by
  unfold RingBuffer.put
  rw [if_neg (by simp [hov])]
  refine ⟨_, rfl, ?_⟩
  by_cases hc : s.count = s.cap <;> simp [hc, hov]

theorem addPeerMac_ok (s : MeshState) (mac : List Nat) (hov : s.peers.overwrite = true) :
    ∃ pr, Mesh.addPeerMac s mac = .ok { s with peers := pr } ∧ pr.overwrite = true := by
  unfold Mesh.addPeerMac
  by_cases hc : s.peers.contains mac
  · rw [if_pos hc]
    exact ⟨s.peers, rfl, hov⟩
  · rw [if_neg hc]
    obtain ⟨pr, hput, hov'⟩ := put_overwrite_ok s.peers mac hov
    rw [hput]
    exact ⟨pr, rfl, hov'⟩

theorem send_ok (s : MeshState) (pkt mac : List Nat) (hst : s.started = true)
    (hov : s.peers.overwrite = true) :
    ∃ pr, Mesh.send s pkt mac = .ok { s with peers := pr } ∧ pr.overwrite = true := by
  unfold Mesh.send
  rw [if_neg (by simp [hst])]
  exact addPeerMac_ok s mac hov

theorem sendData_fold (dst : Nat) (hdst : dst ≤ 0xFFFF) (mac : List Nat)
    (pieces : List (List Nat)) :
    (∀ c ∈ pieces, c.length ≤ 255) →
    ∀ (st : MeshState) (sent : List (List Nat)),
      st.started = true → st.peers.overwrite = true → st.nodeId ≤ 0xFFFF →
      ∃ r, pieces.foldlM (Mesh.sendStep dst mac) (st, sent) = .ok r ∧
        r.1.sequence = Mesh.upSequence^[pieces.length] st.sequence ∧
        r.2 = sent ++ (List.range pieces.length).map
          (fun k => dataFrame st.nodeId dst (Mesh.upSequence^[k + 1] st.sequence)
            (pieces.getD k [])) := by
  induction pieces with
  | nil =>
      intro _ st sent _ _ _
      exact ⟨(st, sent), rfl, rfl, by simp⟩
  | cons c rest ih =>
      intro hp st sent hst hov hid
      have hq : Mesh.upSequence st.sequence ≤ 0xFFFF := upSequence_le _
      have hbuild : build_packet MESH_TYPE_DATA st.nodeId dst (Mesh.upSequence st.sequence) 1
          (MESH_FLAG_UNICAST ||| MESH_FLAG_UNSECURE) c =
          .ok (dataFrame st.nodeId dst (Mesh.upSequence st.sequence) c) :=
        build_packet_ok _ _ _ _ _ _ c (by decide) hid hdst hq
          (by decide) (by decide) (hp c (List.mem_cons_self c rest))
      obtain ⟨pr, hsend, hov'⟩ := send_ok { st with sequence := Mesh.upSequence st.sequence }
        (dataFrame st.nodeId dst (Mesh.upSequence st.sequence) c) mac hst hov
      have hstep : Mesh.sendStep dst mac (st, sent) c =
          .ok ({ st with sequence := Mesh.upSequence st.sequence, peers := pr },
            sent ++ [dataFrame st.nodeId dst (Mesh.upSequence st.sequence) c]) := by
        simp only [Mesh.sendStep, hbuild, bind, Except.bind, pure, Except.pure]
        rw [show Mesh.send { st with sequence := Mesh.upSequence st.sequence }
            (dataFrame st.nodeId dst (Mesh.upSequence st.sequence) c) mac =
            .ok { st with sequence := Mesh.upSequence st.sequence, peers := pr } from hsend]
      obtain ⟨r, hr, hseq, hsent⟩ := ih (fun x hx => hp x (List.mem_cons_of_mem c hx))
        { st with sequence := Mesh.upSequence st.sequence, peers := pr }
        (sent ++ [dataFrame st.nodeId dst (Mesh.upSequence st.sequence) c])
        hst hov' hid
      dsimp only at hseq hsent
      refine ⟨r, ?_, ?_, ?_⟩
      · rw [List.foldlM_cons, hstep]
        show Except.bind _ _ = _
        simp only [Except.bind]
        exact hr
      · rw [hseq, List.length_cons, Function.iterate_succ_apply]
      · rw [hsent, List.length_cons, List.range_succ_eq_map, List.map_cons, List.map_map,
          List.append_assoc]
        have hmap : (List.range rest.length).map
            (fun k => dataFrame st.nodeId dst
              (Mesh.upSequence^[k + 1] (Mesh.upSequence st.sequence)) (rest.getD k [])) =
            (List.range rest.length).map
              ((fun k => dataFrame st.nodeId dst (Mesh.upSequence^[k + 1] st.sequence)
                ((c :: rest).getD k [])) ∘ Nat.succ) := by
          apply List.map_congr_left
          intro k _
          show dataFrame st.nodeId dst (Mesh.upSequence^[k + 1] (Mesh.upSequence st.sequence))
              (rest.getD k []) = _
          rw [← Function.iterate_succ_apply Mesh.upSequence (k + 1)]
          rfl
        rw [hmap]
        rfl

/-- C5 (amended): one call to `send_data` with a resolvable MAC peer increments
the sequence counter once per transmitted chunk — `(pySlices payload 237).length`
times in total — and the k-th transmitted frame carries the sequence value
reached after `k + 1` increments, so multi-chunk messages carry consecutive
distinct seq values. -/
theorem C5_seq_once_per_chunk (s : MeshState) (m payload : List Nat)
    (hst : s.started = true) (hm : m.length = 6) (hmb : ∀ x ∈ m, x < 256)
    (hov : s.peers.overwrite = true) (hid : s.nodeId ≤ 0xFFFF) :
    ∃ r, Mesh.send_data s (.byMac m) payload = .ok r ∧
      r.1.sequence =
        Mesh.upSequence^[(pySlices payload MAX_PAYLOAD_SIZE).length] s.sequence ∧
      r.2.map seqOfPacket =
        (List.range (pySlices payload MAX_PAYLOAD_SIZE).length).map
          (fun k => Mesh.upSequence^[k + 1] s.sequence) := by
  have hpeer := peer_byMac s m hm
  have hconv : payload_conv payload true = .ok (pySlices payload MAX_PAYLOAD_SIZE) := by
    simp [payload_conv]
  have hp : ∀ c ∈ pySlices payload MAX_PAYLOAD_SIZE, c.length ≤ 255 := by
    intro c hc
    simp only [pySlices, List.mem_map, List.mem_range] at hc
    obtain ⟨i, _, hi⟩ := hc
    rw [← hi]
    calc ((payload.drop (i * MAX_PAYLOAD_SIZE)).take MAX_PAYLOAD_SIZE).length
        ≤ MAX_PAYLOAD_SIZE := List.length_take_le _ _
      _ ≤ 255 := by decide
  obtain ⟨r, hr, hseq, hsent⟩ := sendData_fold (Mesh.node_id_of m)
    (node_id_of_le m hmb hm) m (pySlices payload MAX_PAYLOAD_SIZE) hp s [] hst hov hid
  refine ⟨r, ?_, hseq, ?_⟩
  · unfold Mesh.send_data
    rw [show Mesh.peer s (.byMac m) = .ok (Mesh.node_id_of m, m) from hpeer]
    show (payload_conv payload true).bind _ = _
    rw [hconv]
    exact hr
  · rw [hsent, List.nil_append, List.map_map]
    apply List.map_congr_left
    intro k _
    exact seqOfPacket_dataFrame _ _ _ _ (upSequence_iterate_le k _)

/-- Concrete instance of the amended C5 with every hypothesis discharged. -/
theorem C5_seq_once_per_chunk_witness :
    ∃ r, Mesh.send_data testMesh (.byMac [1, 2, 3, 4, 0, 9]) [7, 8, 9] = .ok r ∧
      r.1.sequence =
        Mesh.upSequence^[(pySlices [7, 8, 9] MAX_PAYLOAD_SIZE).length] testMesh.sequence ∧
      r.2.map seqOfPacket =
        (List.range (pySlices [7, 8, 9] MAX_PAYLOAD_SIZE).length).map
          (fun k => Mesh.upSequence^[k + 1] testMesh.sequence) :=
  C5_seq_once_per_chunk testMesh [1, 2, 3, 4, 0, 9] [7, 8, 9] rfl (by decide) (by decide)
    rfl (by decide)

/-! ## C6: the bounded ring registry -/

/-- A positive number whose AND with its predecessor vanishes (the source's
power-of-two test for the mask optimization) is a power of two. -/
theorem pow2_of_and_pred : ∀ n, 0 < n → n &&& (n - 1) = 0 → ∃ k, n = 2 ^ k := by
  intro n
  induction n using Nat.strong_induction_on with
  | _ n ih =>
    intro hp h
    rcases Nat.even_or_odd n with he | ho
    · obtain ⟨m, hm⟩ := he
      have hmpos : 0 < m := by omega
      have hn : n = Nat.bit false m := by simp [Nat.bit]; omega
      have hn1 : n - 1 = Nat.bit true (m - 1) := by simp [Nat.bit]; omega
      rw [hn1, hn, Nat.land_bit] at h
      have h2 : m &&& (m - 1) = 0 := by simpa [Nat.bit] using h
      obtain ⟨k, hk⟩ := ih m (by omega) hmpos h2
      refine ⟨k + 1, ?_⟩
      rw [pow_succ]
      omega
    · obtain ⟨m, hm⟩ := ho
      have hn : n = Nat.bit true m := by simp [Nat.bit]; omega
      have hn1 : n - 1 = Nat.bit false m := by simp [Nat.bit]; omega
      rw [hn1, hn, Nat.land_bit] at h
      have h2 : m = 0 := by simpa [Nat.bit, Nat.and_self] using h
      exact ⟨0, by omega⟩

/-- On a buffer whose mask field is the one `__init__` computes, `_inc`
coincides with addition modulo the capacity (for the in-range offsets every
caller uses). -/
theorem inc_eq_mod {α : Type} (s : RingBuffer α)
    (hm : s.mask = if s.cap &&& (s.cap - 1) = 0 then some (s.cap - 1) else none)
    (hc : 0 < s.cap) (i stp : Nat) (hb : i + stp < 2 * s.cap) :
    s.inc i stp = (i + stp) % s.cap := by
  unfold RingBuffer.inc
  rw [hm]
  by_cases h2 : s.cap &&& (s.cap - 1) = 0
  · rw [if_pos h2]
    obtain ⟨k, hk⟩ := pow2_of_and_pred s.cap hc h2
    show (i + stp) &&& (s.cap - 1) = (i + stp) % s.cap
    rw [hk]
    exact Nat.and_pow_two_sub_one_eq_mod _ k
  · rw [if_neg h2]
    show (if i + stp ≥ s.cap then i + stp - s.cap else i + stp) = (i + stp) % s.cap
    split
    · next h3 =>
        rw [Nat.mod_eq_sub_mod h3, Nat.mod_eq_of_lt (by omega)]
    · next h3 =>
        rw [Nat.mod_eq_of_lt (by omega)]

/-- The slots `to_list` visits, in modular-arithmetic form. -/
theorem toListAux_eq {α : Type} (s : RingBuffer α)
    (hm : s.mask = if s.cap &&& (s.cap - 1) = 0 then some (s.cap - 1) else none)
    (hc : 0 < s.cap) :
    ∀ (n t0 : Nat), t0 < s.cap →
      s.toListAux t0 n = (List.range n).map (fun j => s.buf.getD ((t0 + j) % s.cap) none) := by
  intro n
  induction n with
  | zero => intro t0 _; rfl
  | succ n ih =>
      intro t0 ht
      have hinc : s.inc t0 1 = (t0 + 1) % s.cap := inc_eq_mod s hm hc t0 1 (by omega)
      rw [show s.toListAux t0 (n + 1) =
          s.buf.getD t0 none :: s.toListAux (s.inc t0 1) n from rfl,
        hinc, ih ((t0 + 1) % s.cap) (Nat.mod_lt _ hc),
        List.range_succ_eq_map, List.map_cons, List.map_map]
      congr 1
      · rw [Nat.add_zero, Nat.mod_eq_of_lt ht]
      · apply List.map_congr_left
        intro j _
        show s.buf.getD (((t0 + 1) % s.cap + j) % s.cap) none =
          s.buf.getD ((t0 + (j + 1)) % s.cap) none
        rw [Nat.mod_add_mod, show t0 + 1 + j = t0 + (j + 1) from by omega]

/-- The state reached from a fresh overwriting ring after `xs.length ≤ c` puts:
entry `j` of the storage holds `xs[j]`, the tail is still 0, the head is one
past the last write. -/
def PutsState {α : Type} (c : Nat) (xs : List α) (s : RingBuffer α) : Prop :=
  s.cap = c ∧ s.tail = 0 ∧ s.head = xs.length % c ∧ s.count = xs.length ∧
    s.overwrite = true ∧
    s.mask = (if c &&& (c - 1) = 0 then some (c - 1) else none) ∧
    s.buf.length = c ∧
    ∀ j, j < c → s.buf.getD j none = xs[j]?

theorem run_puts_partial {α : Type} (c : Nat) (hc : 0 < c) (xs : List α) :
    xs.length ≤ c → PutsState c xs ((mkRing α c true).run (xs.map RBOp.put)) := by
  induction xs using List.reverseRecOn with
  | nil =>
      intro _
      refine ⟨rfl, rfl, by simp [mkRing, RingBuffer.run], rfl, rfl, rfl,
        by simp [mkRing, RingBuffer.run], ?_⟩
      intro j hj
      simp [mkRing, RingBuffer.run, List.getD_eq_getElem?_getD, List.getElem?_replicate, hj]
  | append_singleton ys y ih =>
      intro hlen
      rw [List.length_append, List.length_singleton] at hlen
      have hys : ys.length ≤ c := by omega
      have hyslt : ys.length < c := by omega
      obtain ⟨hcap, htail, hhead, hcount, hov, hmask, hbuflen, hslots⟩ := ih hys
      set sc := (mkRing α c true).run (ys.map RBOp.put) with hsc
      have hrun : (mkRing α c true).run ((ys ++ [y]).map RBOp.put) =
          sc.step (RBOp.put y) := by
        rw [List.map_append, RingBuffer.run, List.foldl_append]
        rfl
      have hnotfull : ¬ (sc.count = sc.cap) := by rw [hcount, hcap]; omega
      have hput : sc.put y = .ok { sc with
          buf := sc.buf.set sc.head (some y)
          head := sc.inc sc.head 1
          count := sc.count + 1 } := by
        unfold RingBuffer.put
        rw [if_neg (by simp [hnotfull]), if_neg hnotfull]
      have hstep : sc.step (RBOp.put y) = { sc with
          buf := sc.buf.set sc.head (some y)
          head := sc.inc sc.head 1
          count := sc.count + 1 } := by
        unfold RingBuffer.step
        dsimp only
        rw [hput]
      rw [hrun, hstep]
      have hheadval : sc.head = ys.length := by
        rw [hhead, Nat.mod_eq_of_lt hyslt]
      have hinc : sc.inc sc.head 1 = (ys.length + 1) % c := by
        rw [inc_eq_mod sc (by rw [hmask, hcap]) (by rw [hcap]; exact hc) _ 1
          (by rw [hheadval, hcap]; omega), hheadval, hcap]
      refine ⟨hcap, htail, ?_, ?_, hov, hmask, ?_, ?_⟩
      · rw [hinc, List.length_append, List.length_singleton]
      · rw [hcount, List.length_append, List.length_singleton]
      · rw [List.length_set, hbuflen]
      · intro j hj
        rw [hheadval]
        by_cases hjy : j = ys.length
        · subst hjy
          rw [List.getD_eq_getElem?_getD, List.getElem?_set_self (by omega),
            Option.getD_some, List.getElem?_append_right (by omega)]
          simp
        · rw [List.getD_eq_getElem?_getD, List.getElem?_set_ne (fun h => hjy h.symm),
            ← List.getD_eq_getElem?_getD, hslots j hj]
          by_cases hjlt : j < ys.length
          · rw [List.getElem?_append_left hjlt]
          · rw [List.getElem?_eq_none (by omega), List.getElem?_eq_none
              (by rw [List.length_append, List.length_singleton]; omega)]

/-- The `c + 1`-st put on a fresh overwriting ring of capacity `c` drops exactly
the oldest entry: the stored size stays `c` and the iteration order becomes the
last `c - 1` original items followed by the new one. -/
theorem run_puts_overflow {α : Type} (c : Nat) (hc : 0 < c) (xs : List α)
    (hlen : xs.length = c) (y : α) :
    ((mkRing α c true).run ((xs ++ [y]).map RBOp.put)).count = c ∧
    ((mkRing α c true).run ((xs ++ [y]).map RBOp.put)).to_list =
      ((xs.drop 1) ++ [y]).map some := by
  obtain ⟨hcap, htail, hhead, hcount, hov, hmask, hbuflen, hslots⟩ :=
    run_puts_partial c hc xs (le_of_eq hlen)
  set sc := (mkRing α c true).run (xs.map RBOp.put) with hsc
  have hrun : (mkRing α c true).run ((xs ++ [y]).map RBOp.put) =
      sc.step (RBOp.put y) := by
    rw [List.map_append, RingBuffer.run, List.foldl_append]
    rfl
  have hfull : sc.count = sc.cap := by rw [hcount, hcap, hlen]
  have hput : sc.put y = .ok
      { cap := sc.cap
        buf := sc.buf.set sc.head (some y)
        head := sc.inc sc.head 1
        tail := sc.inc sc.tail 1
        count := (sc.count - 1) + 1
        overwrite := sc.overwrite
        mask := sc.mask } := by
    unfold RingBuffer.put
    rw [if_neg (by simp [hov]), if_pos hfull]
    rfl
  have hstep : sc.step (RBOp.put y) =
      { cap := sc.cap
        buf := sc.buf.set sc.head (some y)
        head := sc.inc sc.head 1
        tail := sc.inc sc.tail 1
        count := (sc.count - 1) + 1
        overwrite := sc.overwrite
        mask := sc.mask } := by
    unfold RingBuffer.step
    dsimp only
    rw [hput]
  have hhead0 : sc.head = 0 := by rw [hhead, hlen, Nat.mod_self]
  have hmask' : sc.mask = if sc.cap &&& (sc.cap - 1) = 0 then some (sc.cap - 1) else none := by
    rw [hmask, hcap]
  have hcpos : 0 < sc.cap := by rw [hcap]; exact hc
  have hinct : sc.inc sc.tail 1 = 1 % c := by
    rw [inc_eq_mod sc hmask' hcpos _ 1 (by rw [htail, hcap]; omega), htail, hcap,
      Nat.zero_add]
  have hinch : sc.inc sc.head 1 = 1 % c := by
    rw [inc_eq_mod sc hmask' hcpos _ 1 (by rw [hhead0, hcap]; omega), hhead0, hcap,
      Nat.zero_add]
  have hcountv : sc.count - 1 + 1 = c := by rw [hcount, hlen]; omega
  rw [hrun, hstep]
  constructor
  · exact hcountv
  · set s' : RingBuffer α :=
      { cap := sc.cap
        buf := sc.buf.set sc.head (some y)
        head := sc.inc sc.head 1
        tail := sc.inc sc.tail 1
        count := (sc.count - 1) + 1
        overwrite := sc.overwrite
        mask := sc.mask } with hs'
    have hs'mask : s'.mask = if s'.cap &&& (s'.cap - 1) = 0 then some (s'.cap - 1) else none :=
      hmask'
    have hs'cpos : 0 < s'.cap := hcpos
    have hs'tail : s'.tail < s'.cap := by
      show sc.inc sc.tail 1 < sc.cap
      rw [hinct, hcap]
      exact Nat.mod_lt _ hc
    rw [RingBuffer.to_list, toListAux_eq s' hs'mask hs'cpos s'.count s'.tail hs'tail]
    have hlendrop : (xs.drop 1).length = c - 1 := by rw [List.length_drop, hlen]
    have hbufeq : s'.buf = sc.buf.set 0 (some y) := by
      show sc.buf.set sc.head (some y) = sc.buf.set 0 (some y)
      rw [hhead0]
    have hcnt : s'.count = c := hcountv
    have htl : s'.tail = 1 % c := hinct
    have hcp : s'.cap = c := hcap
    apply List.ext_getElem?
    intro i
    rw [List.getElem?_map, List.getElem?_map]
    by_cases hic : i < c
    · rw [List.getElem?_range (by rw [hcnt]; exact hic)]
      show some (s'.buf.getD ((s'.tail + i) % s'.cap) none) = _
      rw [htl, hcp, Nat.mod_add_mod, hbufeq]
      by_cases hend : 1 + i = c
      · have hidx : (1 + i) % c = 0 := by rw [hend, Nat.mod_self]
        rw [hidx, List.getD_eq_getElem?_getD, List.getElem?_set_self (by rw [hbuflen]; omega),
          Option.getD_some, List.getElem?_append_right (by rw [hlendrop]; omega),
          show i - (xs.drop 1).length = 0 from by rw [hlendrop]; omega]
        rfl
      · have hlt : 1 + i < c := by omega
        have hidx : (1 + i) % c = 1 + i := Nat.mod_eq_of_lt hlt
        rw [hidx, List.getD_eq_getElem?_getD, List.getElem?_set_ne (by omega),
          ← List.getD_eq_getElem?_getD, hslots (1 + i) hlt,
          List.getElem?_append_left (by rw [hlendrop]; omega),
          List.getElem?_drop,
          List.getElem?_eq_getElem (show 1 + i < xs.length from by omega)]
        rfl
    · rw [List.getElem?_eq_none (by rw [List.length_range, hcnt]; omega),
        List.getElem?_eq_none (by rw [List.length_append, hlendrop]; simp; omega)]
      rfl

/-- Every single operation preserves the capacity and keeps the stored count
within it (raising operations leave the state unchanged, since each `raise`
happens before the first field write). -/
theorem step_cap_count {α : Type} (s : RingBuffer α) (hc : 0 < s.cap)
    (h : s.count ≤ s.cap) (op : RBOp α) :
    (s.step op).cap = s.cap ∧ (s.step op).count ≤ s.cap := by
  cases op with
  | put x =>
      unfold RingBuffer.step RingBuffer.put
      dsimp only
      by_cases h1 : s.count = s.cap ∧ s.overwrite = false
      · rw [if_pos h1]
        exact ⟨rfl, h⟩
      · rw [if_neg h1]
        by_cases h2 : s.count = s.cap
        · rw [if_pos h2]
          exact ⟨rfl, by show s.count - 1 + 1 ≤ s.cap; omega⟩
        · rw [if_neg h2]
          exact ⟨rfl, by show s.count + 1 ≤ s.cap; omega⟩
  | putIndex i x =>
      unfold RingBuffer.step RingBuffer.put_index
      dsimp only
      by_cases h1 : i > s.count
      · rw [if_pos h1]; exact ⟨rfl, h⟩
      · rw [if_neg h1]; exact ⟨rfl, h⟩
  | pop =>
      unfold RingBuffer.step RingBuffer.get
      dsimp only
      by_cases h1 : s.count = 0
      · rw [if_pos h1]; exact ⟨rfl, h⟩
      · rw [if_neg h1]; exact ⟨rfl, by show s.count - 1 ≤ s.cap; omega⟩
  | clear km =>
      unfold RingBuffer.step RingBuffer.clear
      exact ⟨rfl, by show (0 : Nat) ≤ s.cap; omega⟩
  | clearIndex i =>
      unfold RingBuffer.step RingBuffer.clear_index
      dsimp only
      by_cases h1 : i ≥ s.count
      · rw [if_pos h1]; exact ⟨rfl, h⟩
      · rw [if_neg h1]; exact ⟨rfl, by show s.count - 1 ≤ s.cap; omega⟩

theorem run_cap_count {α : Type} :
    ∀ (ops : List (RBOp α)) (s : RingBuffer α), 0 < s.cap → s.count ≤ s.cap →
      (s.run ops).cap = s.cap ∧ (s.run ops).count ≤ s.cap := by
  intro ops
  induction ops with
  | nil => intro s _ h; exact ⟨rfl, h⟩
  | cons op rest ih =>
      intro s hc h
      have hs := step_cap_count s hc h op
      have hrest := ih (s.step op) (hs.1 ▸ hc) (hs.1 ▸ hs.2)
      have hrun : s.run (op :: rest) = (s.step op).run rest := rfl
      rw [hrun, hrest.1, hs.1, ← hs.1] at *
      exact ⟨by rw [hrest.1, hs.1], by rw [← hs.1]; exact hrest.2⟩

/-! ## C6 -/

/-- C6: a ring registry built with overwrite enabled and capacity `c` never
stores more than `c` items under any operation sequence, and `c + 1` puts of
pairwise-distinct items from fresh leave exactly `c` items, the iteration order
being the original order with precisely the oldest entry lost — in particular
the first item put is no longer contained. -/
theorem C6_bounded_ring_registry {α : Type} [DecidableEq α] (c : Nat)
    (s0 : RingBuffer α) (h0 : RingBuffer.new c true = .ok s0) :
    (∀ ops : List (RBOp α), (s0.run ops).count ≤ c) ∧
    (∀ xs : List α, xs.length = c + 1 → xs.Nodup →
      (s0.run (xs.map RBOp.put)).count = c ∧
      (s0.run (xs.map RBOp.put)).to_list = (xs.drop 1).map some ∧
      ∀ x ∈ xs.take 1, (s0.run (xs.map RBOp.put)).contains x = false) := by
  have hc : 0 < c := by
    by_contra hle
    rw [RingBuffer.new, if_pos (by omega)] at h0
    exact absurd h0 (by simp)
  have hs0 : s0 = mkRing α c true := by
    rw [RingBuffer.new_ok α c true hc] at h0
    exact (Except.ok.inj h0).symm
  subst hs0
  constructor
  · intro ops
    exact (run_cap_count ops (mkRing α c true) hc (by show (0 : Nat) ≤ c; omega)).2
  · intro xs hlen hnd
    have hne : xs ≠ [] := by
      intro h
      rw [h] at hlen
      simp at hlen
    obtain ⟨ys, y, hxs⟩ : ∃ ys y, xs = ys ++ [y] :=
      ⟨xs.dropLast, xs.getLast hne, (List.dropLast_append_getLast hne).symm⟩
    have hyslen : ys.length = c := by
      have hl := congrArg List.length hxs
      rw [hlen, List.length_append, List.length_singleton] at hl
      omega
    subst hxs
    obtain ⟨hcnt, hlist⟩ := run_puts_overflow c hc ys hyslen y
    refine ⟨hcnt, ?_, ?_⟩
    · rw [hlist, List.drop_append_of_le_length (by omega)]
    · intro x hx
      cases ys with
      | nil => rw [List.length_nil] at hyslen; omega
      | cons z t =>
          have hxz : x = z := by
            rw [List.cons_append] at hx
            simp at hx
            exact hx
          have hzmem : z ∉ t ++ [y] := by
            rw [List.cons_append, List.nodup_cons] at hnd
            exact hnd.1
          show (((mkRing α c true).run (((z :: t) ++ [y]).map RBOp.put)).to_list).contains
            (some x) = false
          rw [hlist]
          subst hxz
          simpa using hzmem

/-- Concrete instance of C6 at capacity 2 with every hypothesis discharged:
a mixed operation sequence keeps the size within 2, and the three distinct
puts 10, 20, 30 leave `[20, 30]` with 10 no longer contained. -/
theorem C6_bounded_ring_registry_witness :
    (((mkRing Nat 2 true).run [RBOp.put 10, RBOp.clearIndex 0, RBOp.put 20]).count ≤ 2) ∧
    (((mkRing Nat 2 true).run (([10, 20, 30] : List Nat).map RBOp.put)).count = 2 ∧
      ((mkRing Nat 2 true).run (([10, 20, 30] : List Nat).map RBOp.put)).to_list =
        (([10, 20, 30] : List Nat).drop 1).map some ∧
      ∀ x ∈ ([10, 20, 30] : List Nat).take 1,
        ((mkRing Nat 2 true).run (([10, 20, 30] : List Nat).map RBOp.put)).contains x
          = false) :=
  let h := C6_bounded_ring_registry 2 (mkRing Nat 2 true)
    (RingBuffer.new_ok Nat 2 true (by decide))
  ⟨h.1 [RBOp.put 10, RBOp.clearIndex 0, RBOp.put 20],
    h.2 [10, 20, 30] (by decide) (by decide)⟩

end PicoCore
